import Mathlib

/-!
# Verification of the limit-order-book reconstruction engine

Shallow embedding of the LOB reconstruction core that recurs (nearly
identically) in `validation/inspection/reconstruct_lob.py`
(`reconstruct_book`), `11_mass_production.py` (`reconstruct_lob`) and
`13_regime_factory.py` (`reconstruct_lob`).

Modelling conventions:
* Python `float` prices are modelled as `Rat`; a null / NaN / unparseable
  `limit_price` is `Option.none` (the code discards the record in all those
  cases: `float(None)` raises into the bare `except`, and NaN is caught by
  `pd.isna(price)`).
* Python `int` quantities are `Int`; a null / NaN / unparseable `quantity`
  is `Option.none` (`int(nan)` raises into the bare `except` on the
  submission path; `pd.notna` guards the removal path).
* Python dicts (`active_orders`, `bid_levels`, `ask_levels`) are
  association lists with in-place update on an existing key and append on a
  fresh key, which is exactly the observable behaviour of a CPython dict.
* `sys.exit(1)` (inspection script) and `return None` (mass-production and
  regime scripts) on a missing `order_id` column are both modelled as
  `Option.none` results: the run fails with no snapshot output.
* Python's `sorted` is modelled by insertion sort; all snapshot sort keys
  are distinct dict keys, so any correct sort produces the same list.
-/

set_option autoImplicit false

namespace LOB

/-- One record of the event stream, with the columns the reconstructors
select: `EventTime`, `EventType`, `side`, `limit_price`, `quantity`,
`order_id`. -/
structure Event where
  eventTime : Int
  eventType : String
  side : String
  limit_price : Option Rat
  quantity : Option Int
  order_id : Int
  deriving Repr, DecidableEq

/-- The per-order record the code stores in `active_orders`:
`{"p": price, "q": qty, "s": side}`. -/
structure OrderInfo where
  p : Rat
  q : Int
  s : String
  deriving Repr, DecidableEq

/-- `d[k]` lookup on an association list (first matching key, as in a dict
with unique keys). -/
def dictGet {α β : Type} [DecidableEq α] (k : α) : List (α × β) → Option β
  | [] => none
  | (k', v) :: t => if k' = k then some v else dictGet k t

/-- `d.get(k, fallback)`. -/
def dictGetD {α β : Type} [DecidableEq α] (k : α) (d : List (α × β)) (fallback : β) : β :=
  (dictGet k d).getD fallback

/-- `d[k] = v`: replace the value at an existing key in place, append a
fresh key at the end (CPython dict semantics). -/
def dictSet {α β : Type} [DecidableEq α] (k : α) (v : β) : List (α × β) → List (α × β)
  | [] => [(k, v)]
  | (k', v') :: t => if k' = k then (k, v) :: t else (k', v') :: dictSet k v t

/-- `del d[k]`. -/
def dictErase {α β : Type} [DecidableEq α] (k : α) : List (α × β) → List (α × β)
  | [] => []
  | (k', v) :: t => if k' = k then dictErase k t else (k', v) :: dictErase k t

/-- `needle` occurs at the start of `hay`. -/
def charsStartWith : List Char → List Char → Bool
  | [], _ => true
  | _ :: _, [] => false
  | a :: as, b :: bs => a = b && charsStartWith as bs

/-- `needle` occurs contiguously somewhere in `hay`. -/
def charsContain (needle : List Char) : List Char → Bool
  | [] => charsStartWith needle []
  | b :: bs => charsStartWith needle (b :: bs) || charsContain needle bs

/-- The side classification used on submission: Python's
`"BID" in side`. -/
def sideHasBID (side : String) : Bool :=
  charsContain "BID".toList side.toList

/-- The book state threaded through the event loop: the order tracker and
the two price-level dicts. -/
structure LOBState where
  active_orders : List (Int × OrderInfo)
  bid_levels : List (Rat × Int)
  ask_levels : List (Rat × Int)
  deriving Repr, DecidableEq

/-- The empty book every run starts from. -/
def initState : LOBState := ⟨[], [], []⟩

/-- The quantity a removal event takes out: the event's `quantity` when
present (non-null) and `> 0`, otherwise the tracked remaining quantity. -/
def removeQty (e : Event) (info : OrderInfo) : Int :=
  match e.quantity with
  | some q => if 0 < q then q else info.q
  | none => info.q

/-- Remove `r` units at price `price` from a side's level dict: subtract
floored at zero (`max(0, ...)`), delete the key when the result is exactly
zero, and do nothing when the price key is absent. -/
def levelRemove (price : Rat) (r : Int) (levels : List (Rat × Int)) : List (Rat × Int) :=
  match dictGet price levels with
  | none => levels
  | some v =>
    if max 0 (v - r) = 0 then dictErase price (dictSet price (max 0 (v - r)) levels)
    else dictSet price (max 0 (v - r)) levels

/-- One step of the state engine: the `ORDER_SUBMITTED` handler and the
`ORDER_CANCELLED` / `ORDER_EXECUTED` handler, exactly as in the three
Python occurrences (which share this transition logic verbatim). -/
def applyEvent (st : LOBState) (e : Event) : LOBState :=
  if e.eventType = "ORDER_SUBMITTED" then
    match e.limit_price, e.quantity with
    | some price, some qty =>
      if price ≤ 0 then st
      else
        let st1 : LOBState :=
          { st with active_orders := dictSet e.order_id ⟨price, qty, e.side⟩ st.active_orders }
        if sideHasBID e.side then
          { st1 with bid_levels := dictSet price (dictGetD price st1.bid_levels 0 + qty) st1.bid_levels }
        else
          { st1 with ask_levels := dictSet price (dictGetD price st1.ask_levels 0 + qty) st1.ask_levels }
    | _, _ => st
  else if e.eventType = "ORDER_CANCELLED" ∨ e.eventType = "ORDER_EXECUTED" then
    match dictGet e.order_id st.active_orders with
    | none => st
    | some info =>
      let r := removeQty e info
      let st1 : LOBState :=
        if sideHasBID info.s then { st with bid_levels := levelRemove info.p r st.bid_levels }
        else { st with ask_levels := levelRemove info.p r st.ask_levels }
      if info.q ≤ r then
        { st1 with active_orders := dictErase e.order_id st1.active_orders }
      else
        { st1 with active_orders := dictSet e.order_id { info with q := info.q - r } st1.active_orders }
  else st

/-- `DEPTH = 5` in every occurrence. -/
def DEPTH : Nat := 5

/-- `sorted(levels.items(), key=lambda x: x[0], reverse=True)`: price-level
entries by price descending (keys are distinct dict keys, so the order is
fully determined). -/
def sortDescByPrice (l : List (Rat × Int)) : List (Rat × Int) :=
  List.insertionSort (fun a b => b.1 ≤ a.1) l

/-- `sorted(levels.items(), key=lambda x: x[0])`: price-level entries by
price ascending. -/
def sortAscByPrice (l : List (Rat × Int)) : List (Rat × Int) :=
  List.insertionSort (fun a b => a.1 ≤ b.1) l

/-- The `for i in range(DEPTH)` slot loop: slot `i` is the `i`-th entry of
the truncated sorted list when available and `(0.0, 0)` otherwise. -/
def padSlots (l : List (Rat × Int)) : List (Rat × Int) :=
  (List.range DEPTH).map (fun i => l.getD i (0, 0))

/-- One output record: `timestamp`, `symbol`, the five bid and five ask
`(price, qty)` slots (slot `i` of the list is the columns
`bid_px_{i+1}/bid_qty_{i+1}`, resp. ask), and `mid_price`. -/
structure Snapshot where
  timestamp : Int
  symbol : String
  bids : List (Rat × Int)
  asks : List (Rat × Int)
  mid_price : Rat
  deriving Repr, DecidableEq

/-- Snapshot generation, run after every processed event: top-`DEPTH` bids
descending, top-`DEPTH` asks ascending, zero padding, and
`mid_price = (bid_px_1 + ask_px_1) / 2` when both are positive, else `0.0`. -/
def snapshotOf (t : Int) (sym : String) (st : LOBState) : Snapshot :=
  let bids := padSlots ((sortDescByPrice st.bid_levels).take DEPTH)
  let asks := padSlots ((sortAscByPrice st.ask_levels).take DEPTH)
  let b1 := (bids.getD 0 (0, 0)).1
  let a1 := (asks.getD 0 (0, 0)).1
  { timestamp := t
    symbol := sym
    bids := bids
    asks := asks
    mid_price := if 0 < b1 ∧ 0 < a1 then (b1 + a1) / 2 else 0 }

/-- A type-filtered event on which the Python loop body executes
`continue`, skipping the snapshot-generation code at the bottom of the
loop: an `ORDER_SUBMITTED` record whose `limit_price` is null/NaN/
unparseable (the `except: continue`, or `pd.isna(price)` →
`continue`), whose `quantity` is null/NaN/unparseable (`int` raises into
the `except`), or whose parsed price is `<= 0`. Removal events never
`continue` — even a no-op removal of an untracked order falls through to
the snapshot code. -/
def discardsSnapshot (e : Event) : Bool :=
  e.eventType = "ORDER_SUBMITTED" &&
    (match e.limit_price, e.quantity with
     | some price, some _ => price ≤ 0
     | _, _ => true)

/-- The event loop of `reconstruct_book` (inspection script): every
processed event appends a snapshot of the post-event state, except that a
discarded submission `continue`s past the snapshot code (state unchanged,
nothing appended). -/
def runEvents (sym : String) (st : LOBState) : List Event → List Snapshot
  | [] => []
  | e :: rest =>
    if discardsSnapshot e then runEvents sym st rest
    else snapshotOf e.eventTime sym (applyEvent st e) :: runEvents sym (applyEvent st e) rest

/-- The event loop of the `reconstruct_lob` variants (mass-production and
regime scripts): a discarded submission `continue`s past the snapshot code
exactly as in `runEvents`, and in addition the snapshot is appended only
when both `bid_px_1` and `ask_px_1` are positive. -/
def runEventsValid (sym : String) (st : LOBState) : List Event → List Snapshot
  | [] => []
  | e :: rest =>
    if discardsSnapshot e then runEventsValid sym st rest
    else
      let st' := applyEvent st e
      let snap := snapshotOf e.eventTime sym st'
      if 0 < (snap.bids.getD 0 (0, 0)).1 ∧ 0 < (snap.asks.getD 0 (0, 0)).1 then
        snap :: runEventsValid sym st' rest
      else runEventsValid sym st' rest

/-- The intermediate states of a run: the book state after each processed
event ("every point during processing"). -/
def statesOf (st : LOBState) : List Event → List LOBState
  | [] => []
  | e :: rest => applyEvent st e :: statesOf (applyEvent st e) rest

/-- The event-type filter applied before reconstruction begins. -/
def keepEvent (e : Event) : Bool :=
  e.eventType = "ORDER_SUBMITTED" ∨ e.eventType = "ORDER_CANCELLED" ∨
    e.eventType = "ORDER_EXECUTED"

/-- `df[mask]` with the `EventType.isin([...])` mask. -/
def filterEvents (es : List Event) : List Event :=
  es.filter keepEvent

/-- `.sort("EventTime")` / `.sort_values("EventTime")`. -/
def sortByTime (es : List Event) : List Event :=
  List.insertionSort (fun a b => a.eventTime ≤ b.eventTime) es

/-- The input frame as the reconstructors see it: whether the `order_id`
column exists in the schema, and the event records. -/
structure RawFrame where
  hasOrderId : Bool
  events : List Event
  deriving Repr, DecidableEq

/-- `reconstruct_book` of `validation/inspection/reconstruct_lob.py`:
filter to the three event types, fail (`sys.exit(1)`, modelled as `none`)
when `order_id` is absent from the schema, sort by `EventTime`, run the
state engine appending one snapshot per event that is not a discarded
submission. -/
def reconstructBook (df : RawFrame) : Option (List Snapshot) :=
  if df.hasOrderId then
    some (runEvents "NIFTY_SIM" initState (sortByTime (filterEvents df.events)))
  else none

/-- The final save step of `reconstruct_book`: the snapshot list written to
disk after the `mid_price > 0` warm-up filter. -/
def reconstructBookSaved (df : RawFrame) : Option (List Snapshot) :=
  (reconstructBook df).map (fun l => l.filter (fun s => 0 < s.mid_price))

/-- `reconstruct_lob` of `11_mass_production.py` / `13_regime_factory.py`
(identical apart from the exception list of the bare `except`): returns
`None` when `order_id` is absent, and appends only snapshots whose book is
valid (both best prices positive). -/
def reconstructLob (sym : String) (df : RawFrame) : Option (List Snapshot) :=
  if df.hasOrderId then
    some (runEventsValid sym initState (sortByTime (filterEvents df.events)))
  else none

/-! ## Invariant vocabulary -/

/-- The contribution of one tracked order to side `b` (`true` = bid side,
i.e. `"BID" in s`) at price `p`. -/
def contrib (b : Bool) (p : Rat) (o : OrderInfo) : Int :=
  if sideHasBID o.s = b ∧ o.p = p then o.q else 0

/-- Sum of remaining quantities of the tracked orders classified to side
`b` at price `p`. -/
def ordersSum (b : Bool) (p : Rat) : List (Int × OrderInfo) → Int
  | [] => 0
  | (_, o) :: t => contrib b p o + ordersSum b p t

/-- The central correctness invariant as the spec states it: every entry of
a side's price-level dict equals the sum of remaining quantities of the
active orders on that side at that price. -/
def levelsMatchActive (st : LOBState) : Prop :=
  (∀ pv ∈ st.bid_levels, pv.2 = ordersSum true pv.1 st.active_orders) ∧
  (∀ pv ∈ st.ask_levels, pv.2 = ordersSum false pv.1 st.active_orders)

instance (st : LOBState) : Decidable (levelsMatchActive st) := by
  unfold levelsMatchActive; infer_instance

/-- No zero or negative aggregate is retained in either side's level dict. -/
def posLevels (st : LOBState) : Prop :=
  (∀ pv ∈ st.bid_levels, 0 < pv.2) ∧ (∀ pv ∈ st.ask_levels, 0 < pv.2)

instance (st : LOBState) : Decidable (posLevels st) := by
  unfold posLevels; infer_instance

/-- The keys of an association list. -/
def keysOf {α β : Type} (d : List (α × β)) : List α := d.map Prod.fst

/-! ## Association-list lemmas -/

@[simp] theorem keysOf_nil {α β : Type} : keysOf ([] : List (α × β)) = [] := rfl

@[simp] theorem keysOf_cons {α β : Type} (k₀ : α) (v₀ : β) (t : List (α × β)) :
    keysOf ((k₀, v₀) :: t) = k₀ :: keysOf t := rfl

section DictLemmas

variable {α β : Type} [DecidableEq α]

@[simp] theorem dictGet_nil (k : α) : dictGet k ([] : List (α × β)) = none := rfl

@[simp] theorem dictGet_cons (k k₀ : α) (v₀ : β) (t : List (α × β)) :
    dictGet k ((k₀, v₀) :: t) = if k₀ = k then some v₀ else dictGet k t := rfl

@[simp] theorem dictSet_nil (k : α) (v : β) : dictSet k v ([] : List (α × β)) = [(k, v)] := rfl

@[simp] theorem dictSet_cons (k k₀ : α) (v v₀ : β) (t : List (α × β)) :
    dictSet k v ((k₀, v₀) :: t) =
      if k₀ = k then (k, v) :: t else (k₀, v₀) :: dictSet k v t := rfl

@[simp] theorem dictErase_nil (k : α) : dictErase k ([] : List (α × β)) = [] := rfl

@[simp] theorem dictErase_cons (k k₀ : α) (v₀ : β) (t : List (α × β)) :
    dictErase k ((k₀, v₀) :: t) =
      if k₀ = k then dictErase k t else (k₀, v₀) :: dictErase k t := rfl

theorem dictGet_dictSet_self (k : α) (v : β) (l : List (α × β)) :
    dictGet k (dictSet k v l) = some v := by
  induction l with
  | nil => simp
  | cons hd t ih =>
    obtain ⟨k', v'⟩ := hd
    by_cases h : k' = k <;> simp [h, ih]

theorem dictGet_dictSet_ne (k k' : α) (v : β) (l : List (α × β)) (h : k' ≠ k) :
    dictGet k' (dictSet k v l) = dictGet k' l := by
  induction l with
  | nil => simp [Ne.symm h]
  | cons hd t ih =>
    obtain ⟨k₀, v₀⟩ := hd
    by_cases hk : k₀ = k
    · subst hk
      simp [Ne.symm h]
    · simp [hk, ih]

theorem dictErase_sublist (k : α) (l : List (α × β)) : List.Sublist (dictErase k l) l := by
  induction l with
  | nil => simp
  | cons hd t ih =>
    obtain ⟨k₀, v₀⟩ := hd
    by_cases hk : k₀ = k
    · simpa [hk] using ih.cons (k₀, v₀)
    · simpa [hk] using ih.cons₂ (k₀, v₀)

theorem mem_dictErase {x : α × β} {k : α} {l : List (α × β)}
    (h : x ∈ dictErase k l) : x ∈ l :=
  (dictErase_sublist k l).mem h

theorem dictGet_dictErase_self (k : α) (l : List (α × β)) :
    dictGet k (dictErase k l) = none := by
  induction l with
  | nil => simp
  | cons hd t ih =>
    obtain ⟨k₀, v₀⟩ := hd
    by_cases hk : k₀ = k
    · simpa [hk] using ih
    · simp [hk, ih]

theorem dictGet_dictErase_ne (k k' : α) (l : List (α × β)) (h : k' ≠ k) :
    dictGet k' (dictErase k l) = dictGet k' l := by
  induction l with
  | nil => simp
  | cons hd t ih =>
    obtain ⟨k₀, v₀⟩ := hd
    by_cases hk : k₀ = k
    · subst hk
      simp [Ne.symm h, ih]
    · simp [hk, ih]

theorem mem_dictSet {x : α × β} {k : α} {v : β} {l : List (α × β)}
    (h : x ∈ dictSet k v l) : x = (k, v) ∨ x ∈ l := by
  induction l with
  | nil => simpa using h
  | cons hd t ih =>
    obtain ⟨k₀, v₀⟩ := hd
    by_cases hk : k₀ = k
    · simp only [dictSet_cons, if_pos hk, List.mem_cons] at h
      rcases h with h | h
      · exact Or.inl h
      · exact Or.inr (List.mem_cons_of_mem _ h)
    · simp only [dictSet_cons, if_neg hk, List.mem_cons] at h
      rcases h with h | h
      · exact Or.inr (by simp [h])
      · rcases ih h with h' | h'
        · exact Or.inl h'
        · exact Or.inr (List.mem_cons_of_mem _ h')

theorem dictGet_eq_none_iff (k : α) (l : List (α × β)) :
    dictGet k l = none ↔ k ∉ keysOf l := by
  induction l with
  | nil => simp
  | cons hd t ih =>
    obtain ⟨k₀, v₀⟩ := hd
    by_cases hk : k₀ = k
    · subst hk
      simp
    · simp [hk, ih, Ne.symm hk]

theorem dictErase_of_not_mem {k : α} {l : List (α × β)} (h : k ∉ keysOf l) :
    dictErase k l = l := by
  induction l with
  | nil => simp
  | cons hd t ih =>
    obtain ⟨k₀, v₀⟩ := hd
    simp only [keysOf_cons, List.mem_cons, not_or] at h
    simp [Ne.symm h.1, ih h.2]

theorem keysOf_dictSet_nodup {k : α} {v : β} {l : List (α × β)}
    (h : (keysOf l).Nodup) : (keysOf (dictSet k v l)).Nodup := by
  induction l with
  | nil => simp
  | cons hd t ih =>
    obtain ⟨k₀, v₀⟩ := hd
    simp only [keysOf_cons, List.nodup_cons] at h
    by_cases hk : k₀ = k
    · subst hk
      simpa using h
    · have ht := ih h.2
      simp only [dictSet_cons, if_neg hk, keysOf_cons, List.nodup_cons]
      refine ⟨?_, ht⟩
      intro hmem
      obtain ⟨a, ha, hae⟩ := List.mem_map.mp hmem
      rcases mem_dictSet ha with h' | h'
      · exact hk (by rw [← hae, h'])
      · exact h.1 (by rw [← hae]; exact List.mem_map_of_mem Prod.fst h')

theorem keysOf_dictErase_nodup {k : α} {l : List (α × β)}
    (h : (keysOf l).Nodup) : (keysOf (dictErase k l)).Nodup :=
  h.sublist (List.Sublist.map Prod.fst (dictErase_sublist k l))

theorem dictGet_mem {k : α} {v : β} {l : List (α × β)}
    (h : dictGet k l = some v) : (k, v) ∈ l := by
  induction l with
  | nil => simp at h
  | cons hd t ih =>
    obtain ⟨k₀, v₀⟩ := hd
    by_cases hk : k₀ = k
    · subst hk
      have hv : v₀ = v := by simpa using h
      subst hv
      exact List.mem_cons_self _ _
    · simp only [dictGet_cons, if_neg hk] at h
      simp [ih h]

theorem dictGet_of_mem {k : α} {v : β} {l : List (α × β)}
    (hn : (keysOf l).Nodup) (h : (k, v) ∈ l) : dictGet k l = some v := by
  induction l with
  | nil => simp at h
  | cons hd t ih =>
    obtain ⟨k₀, v₀⟩ := hd
    simp only [keysOf_cons, List.nodup_cons] at hn
    rcases List.mem_cons.mp h with h' | h'
    · have h1 : k₀ = k := (congrArg Prod.fst h').symm
      have h2 : v₀ = v := (congrArg Prod.snd h').symm
      simp [h1, h2]
    · have hne : k₀ ≠ k := by
        intro he
        subst he
        exact hn.1 (List.mem_map_of_mem Prod.fst h')
      simp [hne, ih hn.2 h']

end DictLemmas

/-! ## Order-sum lemmas -/

@[simp] theorem ordersSum_nil (b : Bool) (p : Rat) : ordersSum b p [] = 0 := rfl

@[simp] theorem ordersSum_cons (b : Bool) (p : Rat) (k : Int) (o : OrderInfo)
    (t : List (Int × OrderInfo)) :
    ordersSum b p ((k, o) :: t) = contrib b p o + ordersSum b p t := rfl

theorem contrib_nonneg {b : Bool} {p : Rat} {o : OrderInfo} (h : 0 < o.q) :
    0 ≤ contrib b p o := by
  unfold contrib
  split
  · exact le_of_lt h
  · exact le_refl 0

theorem ordersSum_nonneg (b : Bool) (p : Rat) {l : List (Int × OrderInfo)}
    (h : ∀ kv ∈ l, 0 < kv.2.q) : 0 ≤ ordersSum b p l := by
  induction l with
  | nil => simp
  | cons hd t ih =>
    obtain ⟨k₀, o₀⟩ := hd
    have h0 : 0 ≤ contrib b p o₀ := contrib_nonneg (h (k₀, o₀) (List.mem_cons_self _ _))
    have ht : 0 ≤ ordersSum b p t := ih (fun kv hkv => h kv (List.mem_cons_of_mem _ hkv))
    simpa using add_nonneg h0 ht

theorem ordersSum_dictSet_fresh (b : Bool) (p : Rat) (k : Int) (v : OrderInfo)
    {l : List (Int × OrderInfo)} (h : dictGet k l = none) :
    ordersSum b p (dictSet k v l) = ordersSum b p l + contrib b p v := by
  induction l with
  | nil => simp
  | cons hd t ih =>
    obtain ⟨k₀, o₀⟩ := hd
    by_cases hk : k₀ = k
    · simp [hk] at h
    · simp only [dictGet_cons, if_neg hk] at h
      simp only [dictSet_cons, if_neg hk, ordersSum_cons, ih h]
      omega

theorem ordersSum_dictErase (b : Bool) (p : Rat) (k : Int) {o : OrderInfo}
    {l : List (Int × OrderInfo)} (hn : (keysOf l).Nodup) (h : dictGet k l = some o) :
    ordersSum b p (dictErase k l) = ordersSum b p l - contrib b p o := by
  induction l with
  | nil => simp at h
  | cons hd t ih =>
    obtain ⟨k₀, o₀⟩ := hd
    simp only [keysOf_cons, List.nodup_cons] at hn
    by_cases hk : k₀ = k
    · subst hk
      have ho : o₀ = o := by simpa using h
      subst ho
      have herase : dictErase k₀ ((k₀, o₀) :: t) = t := by
        simp [dictErase_of_not_mem hn.1]
      rw [herase]
      simp only [ordersSum_cons]
      omega
    · simp only [dictGet_cons, if_neg hk] at h
      simp only [dictErase_cons, if_neg hk, ordersSum_cons, ih hn.2 h]
      omega

theorem dictGetD_dictSet_self {α β : Type} [DecidableEq α] (k : α) (v d : β)
    (l : List (α × β)) : dictGetD k (dictSet k v l) d = v := by
  simp [dictGetD, dictGet_dictSet_self]

theorem dictGetD_dictSet_ne {α β : Type} [DecidableEq α] (k k' : α) (v d : β)
    (l : List (α × β)) (h : k' ≠ k) : dictGetD k' (dictSet k v l) d = dictGetD k' l d := by
  simp [dictGetD, dictGet_dictSet_ne _ _ _ _ h]

theorem ordersSum_dictSet_update (b : Bool) (p : Rat) (k : Int) (v : OrderInfo)
    {o : OrderInfo} {l : List (Int × OrderInfo)}
    (hn : (keysOf l).Nodup) (h : dictGet k l = some o) :
    ordersSum b p (dictSet k v l) = ordersSum b p l - contrib b p o + contrib b p v := by
  induction l with
  | nil => simp at h
  | cons hd t ih =>
    obtain ⟨k₀, o₀⟩ := hd
    simp only [keysOf_cons, List.nodup_cons] at hn
    by_cases hk : k₀ = k
    · subst hk
      have ho : o₀ = o := by simpa using h
      subst ho
      have hset : dictSet k₀ v ((k₀, o₀) :: t) = (k₀, v) :: t := by simp
      rw [hset]
      simp only [ordersSum_cons]
      omega
    · simp only [dictGet_cons, if_neg hk] at h
      simp only [dictSet_cons, if_neg hk, ordersSum_cons, ih hn.2 h]
      omega

/-! ## Characterizations of the transition function -/

theorem applyEvent_submit_eq (st : LOBState) (e : Event) (price : Rat) (qty : Int)
    (hts : e.eventType = "ORDER_SUBMITTED") (hp : e.limit_price = some price)
    (hq : e.quantity = some qty) (hple : ¬ price ≤ 0) :
    applyEvent st e =
      if sideHasBID e.side then
        { st with
          active_orders := dictSet e.order_id ⟨price, qty, e.side⟩ st.active_orders,
          bid_levels := dictSet price (dictGetD price st.bid_levels 0 + qty) st.bid_levels }
      else
        { st with
          active_orders := dictSet e.order_id ⟨price, qty, e.side⟩ st.active_orders,
          ask_levels := dictSet price (dictGetD price st.ask_levels 0 + qty) st.ask_levels } := by
  by_cases hb : sideHasBID e.side = true
  · simp [applyEvent, hts, hp, hq, hple, hb]
  · simp [applyEvent, hts, hp, hq, hple, hb]

theorem applyEvent_submit_no_price (st : LOBState) (e : Event)
    (hts : e.eventType = "ORDER_SUBMITTED") (hp : e.limit_price = none) :
    applyEvent st e = st := by
  cases hq : e.quantity <;> simp [applyEvent, hts, hp, hq]

theorem applyEvent_submit_no_qty (st : LOBState) (e : Event)
    (hts : e.eventType = "ORDER_SUBMITTED") (hq : e.quantity = none) :
    applyEvent st e = st := by
  cases hp : e.limit_price <;> simp [applyEvent, hts, hp, hq]

theorem applyEvent_submit_bad_price (st : LOBState) (e : Event) (price : Rat) (qty : Int)
    (hts : e.eventType = "ORDER_SUBMITTED") (hp : e.limit_price = some price)
    (hq : e.quantity = some qty) (hple : price ≤ 0) :
    applyEvent st e = st := by
  simp [applyEvent, hts, hp, hq, hple]

theorem not_submit_of_removal {e : Event}
    (htr : e.eventType = "ORDER_CANCELLED" ∨ e.eventType = "ORDER_EXECUTED") :
    ¬ e.eventType = "ORDER_SUBMITTED" := by
  rcases htr with h | h <;> simp [h]

theorem applyEvent_removal_none (st : LOBState) (e : Event)
    (htr : e.eventType = "ORDER_CANCELLED" ∨ e.eventType = "ORDER_EXECUTED")
    (ho : dictGet e.order_id st.active_orders = none) :
    applyEvent st e = st := by
  simp [applyEvent, not_submit_of_removal htr, htr, ho]

theorem applyEvent_removal_eq (st : LOBState) (e : Event) (info : OrderInfo)
    (htr : e.eventType = "ORDER_CANCELLED" ∨ e.eventType = "ORDER_EXECUTED")
    (ho : dictGet e.order_id st.active_orders = some info) :
    applyEvent st e =
      { active_orders :=
          if info.q ≤ removeQty e info then dictErase e.order_id st.active_orders
          else dictSet e.order_id { info with q := info.q - removeQty e info } st.active_orders,
        bid_levels :=
          if sideHasBID info.s then levelRemove info.p (removeQty e info) st.bid_levels
          else st.bid_levels,
        ask_levels :=
          if sideHasBID info.s then st.ask_levels
          else levelRemove info.p (removeQty e info) st.ask_levels } := by
  by_cases hbs : sideHasBID info.s = true <;>
    by_cases hqr : info.q ≤ removeQty e info <;>
      simp [applyEvent, not_submit_of_removal htr, htr, ho, hbs, hqr]

theorem applyEvent_other (st : LOBState) (e : Event)
    (hns : ¬ e.eventType = "ORDER_SUBMITTED")
    (hnr : ¬ (e.eventType = "ORDER_CANCELLED" ∨ e.eventType = "ORDER_EXECUTED")) :
    applyEvent st e = st := by
  simp [applyEvent, hns, hnr]

/-! ## Level-removal lemmas -/

theorem dictGetD_levelRemove_self (p : Rat) (r L : Int) (levels : List (Rat × Int))
    (h : dictGet p levels = some L) :
    dictGetD p (levelRemove p r levels) 0 = max 0 (L - r) := by
  simp only [levelRemove, h]
  by_cases hz : max 0 (L - r) = 0
  · simp [hz, dictGetD, dictGet_dictErase_self]
  · simp [hz, dictGetD, dictGet_dictSet_self]

theorem dictGet_levelRemove_ne (p p' : Rat) (r : Int) (levels : List (Rat × Int))
    (h : p' ≠ p) : dictGet p' (levelRemove p r levels) = dictGet p' levels := by
  cases hg : dictGet p levels with
  | none => simp [levelRemove, hg]
  | some L =>
    simp only [levelRemove, hg]
    by_cases hz : max 0 (L - r) = 0
    · rw [if_pos hz, dictGet_dictErase_ne _ _ _ h, dictGet_dictSet_ne _ _ _ _ h]
    · rw [if_neg hz, dictGet_dictSet_ne _ _ _ _ h]

theorem levelRemove_of_none (p : Rat) (r : Int) (levels : List (Rat × Int))
    (h : dictGet p levels = none) : levelRemove p r levels = levels := by
  simp [levelRemove, h]

theorem keysOf_levelRemove_nodup {p : Rat} {r : Int} {levels : List (Rat × Int)}
    (hn : (keysOf levels).Nodup) : (keysOf (levelRemove p r levels)).Nodup := by
  cases hg : dictGet p levels with
  | none => simpa [levelRemove, hg] using hn
  | some L =>
    simp only [levelRemove, hg]
    by_cases hz : max 0 (L - r) = 0
    · rw [if_pos hz]
      exact keysOf_dictErase_nodup (keysOf_dictSet_nodup hn)
    · rw [if_neg hz]
      exact keysOf_dictSet_nodup hn

theorem mem_dictErase_ne {α β : Type} [DecidableEq α] {x : α × β} {k : α}
    {l : List (α × β)} (h : x ∈ dictErase k l) : x.1 ≠ k := by
  induction l with
  | nil => simp at h
  | cons hd t ih =>
    obtain ⟨k₀, v₀⟩ := hd
    by_cases hk : k₀ = k
    · rw [dictErase_cons, if_pos hk] at h
      exact ih h
    · rw [dictErase_cons, if_neg hk] at h
      rcases List.mem_cons.mp h with h' | h'
      · rw [h']
        exact hk
      · exact ih h'

theorem mem_levelRemove {p : Rat} {r : Int} {levels : List (Rat × Int)} {pv : Rat × Int}
    (h : pv ∈ levelRemove p r levels) : pv ∈ levels ∨ (pv.1 = p ∧ 0 < pv.2) := by
  cases hg : dictGet p levels with
  | none =>
    rw [levelRemove_of_none p r levels hg] at h
    exact Or.inl h
  | some L =>
    simp only [levelRemove, hg] at h
    by_cases hz : max 0 (L - r) = 0
    · rw [if_pos hz] at h
      have hne := mem_dictErase_ne h
      rcases mem_dictSet (mem_dictErase h) with h' | h'
      · exact absurd (congrArg Prod.fst h') hne
      · exact Or.inl h'
    · rw [if_neg hz] at h
      rcases mem_dictSet h with h' | h'
      · refine Or.inr ⟨congrArg Prod.fst h', ?_⟩
        have h2 : pv.2 = max 0 (L - r) := congrArg Prod.snd h'
        omega
      · exact Or.inl h'

/-! ## The strengthened invariant and the conditions under which it is
preserved -/

/-- Structural well-formedness: the three dicts have unique keys (automatic
for Python dicts) and every tracked order has a positive remaining
quantity. -/
def stateWF (st : LOBState) : Prop :=
  (keysOf st.active_orders).Nodup ∧ (keysOf st.bid_levels).Nodup ∧
    (keysOf st.ask_levels).Nodup ∧ ∀ kv ∈ st.active_orders, 0 < kv.2.q

/-- The strengthened (inductive) form of the book invariant: for every side
and every price, the level-dict value — defaulting to `0` when the price
key is absent — equals the sum of tracked remaining quantities there. -/
def strongInv (st : LOBState) : Prop :=
  (∀ p : Rat, dictGetD p st.bid_levels 0 = ordersSum true p st.active_orders) ∧
  (∀ p : Rat, dictGetD p st.ask_levels 0 = ordersSum false p st.active_orders)

/-- The per-event well-behavedness conditions under which the book
invariant is preserved: a processed submission must carry a positive
quantity and must not reuse an `order_id` that is still tracked, and a
removal carrying an explicit positive quantity must not remove more than
the order's tracked remaining quantity. -/
def goodEvent (st : LOBState) (e : Event) : Bool :=
  if e.eventType = "ORDER_SUBMITTED" then
    match e.limit_price, e.quantity with
    | some price, some qty =>
      if price ≤ 0 then true
      else decide (0 < qty) && (dictGet e.order_id st.active_orders).isNone
    | _, _ => true
  else if e.eventType = "ORDER_CANCELLED" ∨ e.eventType = "ORDER_EXECUTED" then
    match dictGet e.order_id st.active_orders with
    | none => true
    | some info =>
      match e.quantity with
      | some q => if 0 < q then decide (q ≤ info.q) else true
      | none => true
  else true

/-- `goodEvent` holding along a whole run. -/
def goodRun (st : LOBState) : List Event → Bool
  | [] => true
  | e :: rest => goodEvent st e && goodRun (applyEvent st e) rest

theorem applyEvent_wf_inv (st : LOBState) (e : Event)
    (hwf : stateWF st) (hinv : strongInv st) (hg : goodEvent st e = true) :
    stateWF (applyEvent st e) ∧ strongInv (applyEvent st e) := by
  obtain ⟨hnO, hnB, hnA, hposq⟩ := hwf
  obtain ⟨hib, hia⟩ := hinv
  by_cases hts : e.eventType = "ORDER_SUBMITTED"
  · -- submission handler
    cases hp : e.limit_price with
    | none =>
      rw [applyEvent_submit_no_price st e hts hp]
      exact ⟨⟨hnO, hnB, hnA, hposq⟩, hib, hia⟩
    | some price =>
      cases hq : e.quantity with
      | none =>
        rw [applyEvent_submit_no_qty st e hts hq]
        exact ⟨⟨hnO, hnB, hnA, hposq⟩, hib, hia⟩
      | some qty =>
        by_cases hple : price ≤ 0
        · rw [applyEvent_submit_bad_price st e price qty hts hp hq hple]
          exact ⟨⟨hnO, hnB, hnA, hposq⟩, hib, hia⟩
        · have hg' : 0 < qty ∧ dictGet e.order_id st.active_orders = none := by
            unfold goodEvent at hg
            rw [if_pos hts, hp, hq] at hg
            simpa [hple, Option.isNone_iff_eq_none] using hg
          obtain ⟨hqty, hfresh⟩ := hg'
          rw [applyEvent_submit_eq st e price qty hts hp hq hple]
          have hactive : ∀ kv ∈ dictSet e.order_id
              (⟨price, qty, e.side⟩ : OrderInfo) st.active_orders, 0 < kv.2.q := by
            intro kv hkv
            rcases mem_dictSet hkv with h' | h'
            · rw [h']
              exact hqty
            · exact hposq kv h'
          by_cases hb : sideHasBID e.side = true
          · rw [if_pos hb]
            refine ⟨⟨keysOf_dictSet_nodup hnO, keysOf_dictSet_nodup hnB, hnA, hactive⟩,
              ?_, ?_⟩
            · intro p
              by_cases hpp : p = price
              · subst hpp
                rw [dictGetD_dictSet_self,
                  ordersSum_dictSet_fresh _ _ _ _ hfresh, ← hib p]
                have hc : contrib true p (⟨p, qty, e.side⟩ : OrderInfo) = qty := by
                  simp [contrib, hb]
                rw [hc]
              · rw [dictGetD_dictSet_ne _ _ _ _ _ hpp,
                  ordersSum_dictSet_fresh _ _ _ _ hfresh, ← hib p]
                have hc : contrib true p (⟨price, qty, e.side⟩ : OrderInfo) = 0 := by
                  simp [contrib]
                  intro _
                  exact fun hpe => absurd hpe.symm hpp
                rw [hc, add_zero]
            · intro p
              rw [ordersSum_dictSet_fresh _ _ _ _ hfresh, ← hia p]
              have hc : contrib false p (⟨price, qty, e.side⟩ : OrderInfo) = 0 := by
                simp [contrib, hb]
              rw [hc, add_zero]
          · rw [if_neg hb]
            refine ⟨⟨keysOf_dictSet_nodup hnO, hnB, keysOf_dictSet_nodup hnA, hactive⟩,
              ?_, ?_⟩
            · intro p
              rw [ordersSum_dictSet_fresh _ _ _ _ hfresh, ← hib p]
              have hc : contrib true p (⟨price, qty, e.side⟩ : OrderInfo) = 0 := by
                simp [contrib, hb]
              rw [hc, add_zero]
            · intro p
              by_cases hpp : p = price
              · subst hpp
                rw [dictGetD_dictSet_self,
                  ordersSum_dictSet_fresh _ _ _ _ hfresh, ← hia p]
                have hc : contrib false p (⟨p, qty, e.side⟩ : OrderInfo) = qty := by
                  simp [contrib, hb]
                rw [hc]
              · rw [dictGetD_dictSet_ne _ _ _ _ _ hpp,
                  ordersSum_dictSet_fresh _ _ _ _ hfresh, ← hia p]
                have hc : contrib false p (⟨price, qty, e.side⟩ : OrderInfo) = 0 := by
                  simp [contrib]
                  intro _
                  exact fun hpe => absurd hpe.symm hpp
                rw [hc, add_zero]
  · by_cases htr : e.eventType = "ORDER_CANCELLED" ∨ e.eventType = "ORDER_EXECUTED"
    · -- removal handler
      cases ho : dictGet e.order_id st.active_orders with
      | none =>
        rw [applyEvent_removal_none st e htr ho]
        exact ⟨⟨hnO, hnB, hnA, hposq⟩, hib, hia⟩
      | some info =>
        have hmem : (e.order_id, info) ∈ st.active_orders := dictGet_mem ho
        have hinfo_pos : 0 < info.q := hposq _ hmem
        have hrle : removeQty e info ≤ info.q := by
          unfold goodEvent at hg
          rw [if_neg hts, if_pos htr, ho] at hg
          cases hq : e.quantity with
          | none => simp [removeQty, hq]
          | some q =>
            rw [hq] at hg
            by_cases hqpos : 0 < q
            · have hqle : q ≤ info.q := by simpa [hqpos] using hg
              simp [removeQty, hq, hqpos, hqle]
            · simp [removeQty, hq, hqpos]
        have hrpos : 0 < removeQty e info := by
          cases hq : e.quantity with
          | none => simpa [removeQty, hq] using hinfo_pos
          | some q =>
            by_cases hqpos : 0 < q
            · simpa [removeQty, hq, hqpos] using hqpos
            · simpa [removeQty, hq, hqpos] using hinfo_pos
        rw [applyEvent_removal_eq st e info htr ho]
        set r := removeQty e info with hrdef
        -- decomposition of the aggregate at the order's own side and price
        have hsplit := ordersSum_dictErase (sideHasBID info.s) info.p e.order_id hnO ho
        have hcinfo : contrib (sideHasBID info.s) info.p info = info.q := by
          simp [contrib]
        have hrest_nonneg :
            0 ≤ ordersSum (sideHasBID info.s) info.p (dictErase e.order_id st.active_orders) :=
          ordersSum_nonneg _ _ (fun kv hkv => hposq kv (mem_dictErase hkv))
        -- the new active-orders dict, in either branch
        have hactive_nodup : (keysOf (if info.q ≤ r then dictErase e.order_id st.active_orders
            else dictSet e.order_id { info with q := info.q - r } st.active_orders)).Nodup := by
          by_cases hqr : info.q ≤ r
          · rw [if_pos hqr]
            exact keysOf_dictErase_nodup hnO
          · rw [if_neg hqr]
            exact keysOf_dictSet_nodup hnO
        have hactive_pos : ∀ kv ∈ (if info.q ≤ r then dictErase e.order_id st.active_orders
            else dictSet e.order_id { info with q := info.q - r } st.active_orders), 0 < kv.2.q := by
          by_cases hqr : info.q ≤ r
          · rw [if_pos hqr]
            intro kv hkv
            exact hposq kv (mem_dictErase hkv)
          · rw [if_neg hqr]
            intro kv hkv
            rcases mem_dictSet hkv with h' | h'
            · rw [h']
              simp only []
              omega
            · exact hposq kv h'
        -- the sum over the new active-orders dict, any side and price
        have hsum : ∀ (b : Bool) (p : Rat),
            ordersSum b p (if info.q ≤ r then dictErase e.order_id st.active_orders
              else dictSet e.order_id { info with q := info.q - r } st.active_orders) =
            ordersSum b p st.active_orders - contrib b p info +
              (if info.q ≤ r then 0 else contrib b p { info with q := info.q - r }) := by
          intro b p
          by_cases hqr : info.q ≤ r
          · rw [if_pos hqr, if_pos hqr, ordersSum_dictErase b p e.order_id hnO ho, add_zero]
          · rw [if_neg hqr, if_neg hqr, ordersSum_dictSet_update b p e.order_id _ hnO ho]
        -- contributions of the (possibly) updated order record
        have hcontrib_upd : ∀ (b : Bool) (p : Rat),
            contrib b p { info with q := info.q - r } =
              if sideHasBID info.s = b ∧ info.p = p then info.q - r else 0 := by
          intro b p
          simp [contrib]
        -- the price key of the removed order is present on its own side
        have hSpos : 0 < ordersSum (sideHasBID info.s) info.p st.active_orders := by
          omega
        have hLbid : sideHasBID info.s = true →
            dictGet info.p st.bid_levels =
              some (ordersSum true info.p st.active_orders) := by
          intro hbs
          have hgd := hib info.p
          rw [hbs] at hSpos
          unfold dictGetD at hgd
          cases hgl : dictGet info.p st.bid_levels with
          | none =>
            rw [hgl] at hgd
            simp at hgd
            exfalso
            omega
          | some v =>
            rw [hgl] at hgd
            simp at hgd
            rw [hgd]
        have hLask : sideHasBID info.s = false →
            dictGet info.p st.ask_levels =
              some (ordersSum false info.p st.active_orders) := by
          intro hbs'
          have hgd := hia info.p
          rw [hbs'] at hSpos
          unfold dictGetD at hgd
          cases hgl : dictGet info.p st.ask_levels with
          | none =>
            rw [hgl] at hgd
            simp at hgd
            exfalso
            omega
          | some v =>
            rw [hgl] at hgd
            simp at hgd
            rw [hgd]
        constructor
        · -- structural well-formedness of the new state
          refine ⟨hactive_nodup, ?_, ?_, hactive_pos⟩
          · dsimp only
            by_cases hbs : sideHasBID info.s = true
            · rw [if_pos hbs]
              exact keysOf_levelRemove_nodup hnB
            · rw [if_neg hbs]
              exact hnB
          · dsimp only
            by_cases hbs : sideHasBID info.s = true
            · rw [if_pos hbs]
              exact hnA
            · rw [if_neg hbs]
              exact keysOf_levelRemove_nodup hnA
        · -- the strengthened invariant on the new state
          constructor
          · intro p
            dsimp only
            by_cases hbs : sideHasBID info.s = true
            · -- bid side is the touched side
              rw [if_pos hbs]
              by_cases hpp : p = info.p
              · subst hpp
                rw [dictGetD_levelRemove_self info.p r _ st.bid_levels (hLbid hbs),
                  hsum true info.p, hcontrib_upd true info.p]
                have hsplit' := hsplit
                have hcinfo' := hcinfo
                have hrest' := hrest_nonneg
                rw [hbs] at hsplit' hcinfo' hrest'
                by_cases hqr : info.q ≤ r
                · rw [if_pos hqr]
                  omega
                · rw [if_neg hqr,
                    if_pos (show sideHasBID info.s = true ∧ info.p = info.p from ⟨hbs, rfl⟩)]
                  omega
              · have hcond : ¬ (sideHasBID info.s = true ∧ info.p = p) := by
                  rintro ⟨-, h2⟩
                  exact hpp h2.symm
                have hc0 : contrib true p info = 0 := by
                  unfold contrib
                  rw [if_neg hcond]
                have hc0' : contrib true p { info with q := info.q - r } = 0 := by
                  rw [hcontrib_upd true p, if_neg hcond]
                unfold dictGetD
                rw [dictGet_levelRemove_ne info.p p r st.bid_levels hpp,
                  hsum true p, hc0, hc0']
                have hgp := hib p
                unfold dictGetD at hgp
                by_cases hqr : info.q ≤ r
                · rw [if_pos hqr]
                  omega
                · rw [if_neg hqr]
                  omega
            · -- ask side is the touched side, bid levels unchanged
              rw [if_neg hbs]
              have hbs' : sideHasBID info.s = false := by
                simpa using hbs
              have hcond : ¬ (sideHasBID info.s = true ∧ info.p = p) := by
                rintro ⟨h1, -⟩
                rw [hbs'] at h1
                exact Bool.false_ne_true h1
              have hc0 : contrib true p info = 0 := by
                unfold contrib
                rw [if_neg hcond]
              have hc0' : contrib true p { info with q := info.q - r } = 0 := by
                rw [hcontrib_upd true p, if_neg hcond]
              rw [hsum true p, hc0, hc0']
              have hgp := hib p
              by_cases hqr : info.q ≤ r
              · rw [if_pos hqr]
                omega
              · rw [if_neg hqr]
                omega
          · intro p
            dsimp only
            by_cases hbs : sideHasBID info.s = true
            · -- bid side is the touched side, ask levels unchanged
              rw [if_pos hbs]
              have hcond : ¬ (sideHasBID info.s = false ∧ info.p = p) := by
                rintro ⟨h1, -⟩
                rw [hbs] at h1
                simp at h1
              have hc0 : contrib false p info = 0 := by
                unfold contrib
                rw [if_neg hcond]
              have hc0' : contrib false p { info with q := info.q - r } = 0 := by
                rw [hcontrib_upd false p, if_neg hcond]
              rw [hsum false p, hc0, hc0']
              have hgp := hia p
              by_cases hqr : info.q ≤ r
              · rw [if_pos hqr]
                omega
              · rw [if_neg hqr]
                omega
            · -- ask side is the touched side
              rw [if_neg hbs]
              have hbs' : sideHasBID info.s = false := by
                simpa using hbs
              by_cases hpp : p = info.p
              · subst hpp
                rw [dictGetD_levelRemove_self info.p r _ st.ask_levels (hLask hbs'),
                  hsum false info.p, hcontrib_upd false info.p]
                have hsplit' := hsplit
                have hcinfo' := hcinfo
                have hrest' := hrest_nonneg
                rw [hbs'] at hsplit' hcinfo' hrest'
                by_cases hqr : info.q ≤ r
                · rw [if_pos hqr]
                  omega
                · rw [if_neg hqr,
                    if_pos (show sideHasBID info.s = false ∧ info.p = info.p from ⟨hbs', rfl⟩)]
                  omega
              · have hcond : ¬ (sideHasBID info.s = false ∧ info.p = p) := by
                  rintro ⟨-, h2⟩
                  exact hpp h2.symm
                have hc0 : contrib false p info = 0 := by
                  unfold contrib
                  rw [if_neg]
                  rintro ⟨-, h2⟩
                  exact hpp h2.symm
                have hc0' : contrib false p { info with q := info.q - r } = 0 := by
                  rw [hcontrib_upd false p, if_neg hcond]
                unfold dictGetD
                rw [dictGet_levelRemove_ne info.p p r st.ask_levels hpp,
                  hsum false p, hc0, hc0']
                have hgp := hia p
                unfold dictGetD at hgp
                by_cases hqr : info.q ≤ r
                · rw [if_pos hqr]
                  omega
                · rw [if_neg hqr]
                  omega
    · rw [applyEvent_other st e hts htr]
      exact ⟨⟨hnO, hnB, hnA, hposq⟩, hib, hia⟩

theorem stateWF_init : stateWF initState :=
  ⟨List.nodup_nil, List.nodup_nil, List.nodup_nil, by simp [initState]⟩

theorem strongInv_init : strongInv initState :=
  ⟨fun _ => rfl, fun _ => rfl⟩

theorem goodRun_wf_inv (es : List Event) : ∀ st : LOBState, stateWF st → strongInv st →
    goodRun st es = true → ∀ s ∈ statesOf st es, stateWF s ∧ strongInv s := by
  induction es with
  | nil =>
    intro st _ _ _ s hs
    simp [statesOf] at hs
  | cons e rest ih =>
    intro st hwf hinv hg s hs
    simp only [goodRun, Bool.and_eq_true] at hg
    obtain ⟨hg1, hg2⟩ := hg
    have hstep := applyEvent_wf_inv st e hwf hinv hg1
    simp only [statesOf, List.mem_cons] at hs
    rcases hs with rfl | hs
    · exact hstep
    · exact ih (applyEvent st e) hstep.1 hstep.2 hg2 s hs

theorem levelsMatchActive_of {st : LOBState} (hwf : stateWF st) (hinv : strongInv st) :
    levelsMatchActive st := by
  obtain ⟨-, hnB, hnA, -⟩ := hwf
  obtain ⟨hib, hia⟩ := hinv
  constructor
  · intro pv hpv
    obtain ⟨p, v⟩ := pv
    have hgv : dictGet p st.bid_levels = some v := dictGet_of_mem hnB hpv
    have hd := hib p
    unfold dictGetD at hd
    rw [hgv] at hd
    simpa using hd
  · intro pv hpv
    obtain ⟨p, v⟩ := pv
    have hgv : dictGet p st.ask_levels = some v := dictGet_of_mem hnA hpv
    have hd := hia p
    unfold dictGetD at hd
    rw [hgv] at hd
    simpa using hd

/-! ## Positivity of retained price levels -/

theorem posLevels_init : posLevels initState :=
  ⟨by simp [initState], by simp [initState]⟩

theorem applyEvent_posLevels (st : LOBState) (e : Event) (hpos : posLevels st)
    (hq : e.eventType = "ORDER_SUBMITTED" → ∀ q, e.quantity = some q → 0 < q) :
    posLevels (applyEvent st e) := by
  by_cases hts : e.eventType = "ORDER_SUBMITTED"
  · cases hp : e.limit_price with
    | none =>
      rw [applyEvent_submit_no_price st e hts hp]
      exact hpos
    | some price =>
      cases hqe : e.quantity with
      | none =>
        rw [applyEvent_submit_no_qty st e hts hqe]
        exact hpos
      | some qty =>
        by_cases hple : price ≤ 0
        · rw [applyEvent_submit_bad_price st e price qty hts hp hqe hple]
          exact hpos
        · have hqty : 0 < qty := hq hts qty hqe
          rw [applyEvent_submit_eq st e price qty hts hp hqe hple]
          obtain ⟨hb, ha⟩ := hpos
          have hgeb : 0 ≤ dictGetD price st.bid_levels 0 := by
            unfold dictGetD
            cases hgl : dictGet price st.bid_levels with
            | none => simp
            | some v =>
              have hv := hb (price, v) (dictGet_mem hgl)
              simpa using le_of_lt hv
          have hgea : 0 ≤ dictGetD price st.ask_levels 0 := by
            unfold dictGetD
            cases hgl : dictGet price st.ask_levels with
            | none => simp
            | some v =>
              have hv := ha (price, v) (dictGet_mem hgl)
              simpa using le_of_lt hv
          by_cases hside : sideHasBID e.side = true
          · rw [if_pos hside]
            refine ⟨?_, ha⟩
            intro pv hpv
            dsimp only at hpv
            rcases mem_dictSet hpv with h' | h'
            · have h2 : pv.2 = dictGetD price st.bid_levels 0 + qty :=
                congrArg Prod.snd h'
              omega
            · exact hb pv h'
          · rw [if_neg hside]
            refine ⟨hb, ?_⟩
            intro pv hpv
            dsimp only at hpv
            rcases mem_dictSet hpv with h' | h'
            · have h2 : pv.2 = dictGetD price st.ask_levels 0 + qty :=
                congrArg Prod.snd h'
              omega
            · exact ha pv h'
  · by_cases htr : e.eventType = "ORDER_CANCELLED" ∨ e.eventType = "ORDER_EXECUTED"
    · cases ho : dictGet e.order_id st.active_orders with
      | none =>
        rw [applyEvent_removal_none st e htr ho]
        exact hpos
      | some info =>
        rw [applyEvent_removal_eq st e info htr ho]
        obtain ⟨hb, ha⟩ := hpos
        constructor
        · intro pv hpv
          dsimp only at hpv
          by_cases hside : sideHasBID info.s = true
          · rw [if_pos hside] at hpv
            rcases mem_levelRemove hpv with h' | h'
            · exact hb pv h'
            · exact h'.2
          · rw [if_neg hside] at hpv
            exact hb pv hpv
        · intro pv hpv
          dsimp only at hpv
          by_cases hside : sideHasBID info.s = true
          · rw [if_pos hside] at hpv
            exact ha pv hpv
          · rw [if_neg hside] at hpv
            rcases mem_levelRemove hpv with h' | h'
            · exact ha pv h'
            · exact h'.2
    · rw [applyEvent_other st e hts htr]
      exact hpos

theorem posLevels_states (es : List Event) : ∀ st : LOBState, posLevels st →
    (∀ e ∈ es, e.eventType = "ORDER_SUBMITTED" → ∀ q, e.quantity = some q → 0 < q) →
    ∀ s ∈ statesOf st es, posLevels s := by
  induction es with
  | nil =>
    intro st _ _ s hs
    simp [statesOf] at hs
  | cons e rest ih =>
    intro st hpos hq s hs
    have hstep := applyEvent_posLevels st e hpos
      (fun hts q hqe => hq e (List.mem_cons_self _ _) hts q hqe)
    simp only [statesOf, List.mem_cons] at hs
    rcases hs with rfl | hs
    · exact hstep
    · exact ih (applyEvent st e) hstep
        (fun e' he' => hq e' (List.mem_cons_of_mem _ he')) s hs

/-! ## Run-length lemmas -/

theorem runEvents_length (sym : String) : ∀ (st : LOBState) (es : List Event),
    (runEvents sym st es).length =
      (es.filter (fun e => !discardsSnapshot e)).length := by
  intro st es
  induction es generalizing st with
  | nil => rfl
  | cons e rest ih =>
    by_cases hd : discardsSnapshot e = true
    · simp [runEvents, hd, ih]
    · simp [runEvents, hd, ih]

theorem sortByTime_filter_length (p : Event → Bool) (es : List Event) :
    ((sortByTime es).filter p).length = (es.filter p).length :=
  ((List.perm_insertionSort _ es).filter p).length_eq

/-! ## Claim theorems -/

/-- Claim C2 (claim as stated, refuted twice over): (1) an
`ORDER_SUBMITTED` event with price `0` survives the type filter (one
filtered event) but is discarded, and the `continue` skips the
snapshot-generation code, so `reconstruct_book` appends nothing for it;
(2) a valid `ORDER_SUBMITTED` event likewise survives the filter, yet
`reconstruct_lob` of `11_mass_production.py` / `13_regime_factory.py`
appends no snapshot for it either, because the post-event book has no ask
side and the append is guarded by `bid_px_1 > 0 and ask_px_1 > 0`. -/
theorem claim_C2_counterexample :
    ¬ ((reconstructBook
          ⟨true, [⟨0, "ORDER_SUBMITTED", "Side.BID", some 0, some 10, 1⟩]⟩).map
            List.length =
        some (filterEvents [⟨0, "ORDER_SUBMITTED", "Side.BID", some 0, some 10, 1⟩]).length) ∧
    ¬ ((reconstructLob "NIFTY_FUT"
          ⟨true, [⟨0, "ORDER_SUBMITTED", "Side.BID", some 100, some 10, 1⟩]⟩).map
            List.length =
        some (filterEvents [⟨0, "ORDER_SUBMITTED", "Side.BID", some 100, some 10, 1⟩]).length) := by
  constructor
  · decide
  · decide

/-- Claim C2 (amended): in the inspection script's `reconstruct_book`, the
in-loop `snapshots` list receives exactly one snapshot per type-filtered
event that is not a discarded submission — no-op removals and
invalid-book events do still append — so its length equals the
type-filtered input event count minus the discarded submissions; the
mass-production/regime `reconstruct_lob` variants additionally append only
snapshots whose book is valid (both best prices positive). -/
theorem claim_C2_amended (df : RawFrame) (h : df.hasOrderId = true) :
    (reconstructBook df).map List.length =
      some ((filterEvents df.events).filter (fun e => !discardsSnapshot e)).length := by
  unfold reconstructBook
  rw [h]
  simp only [if_true, Option.map_some']
  rw [runEvents_length, sortByTime_filter_length]

/-- Witness for C2: a four-event frame (one valid submission, one
filtered-out event kind, one discarded zero-price submission, one removal
of an unknown order) yields exactly two snapshots — one per type-filtered
event that is not a discarded submission. -/
theorem claim_C2_witness :
    (reconstructBook ⟨true,
      [⟨0, "ORDER_SUBMITTED", "Side.BID", some 100, some 10, 1⟩,
       ⟨1, "MARKET_OPEN", "", none, none, 0⟩,
       ⟨2, "ORDER_SUBMITTED", "Side.BID", some 0, some 7, 3⟩,
       ⟨3, "ORDER_CANCELLED", "", none, some 5, 99⟩]⟩).map List.length =
      some ((filterEvents
        [⟨0, "ORDER_SUBMITTED", "Side.BID", some 100, some 10, 1⟩,
         ⟨1, "MARKET_OPEN", "", none, none, 0⟩,
         ⟨2, "ORDER_SUBMITTED", "Side.BID", some 0, some 7, 3⟩,
         ⟨3, "ORDER_CANCELLED", "", none, some 5, 99⟩]).filter
           (fun e => !discardsSnapshot e)).length :=
  claim_C2_amended
    ⟨true, [⟨0, "ORDER_SUBMITTED", "Side.BID", some 100, some 10, 1⟩,
            ⟨1, "MARKET_OPEN", "", none, none, 0⟩,
            ⟨2, "ORDER_SUBMITTED", "Side.BID", some 0, some 7, 3⟩,
            ⟨3, "ORDER_CANCELLED", "", none, some 5, 99⟩]⟩ rfl

/-- Claim C3: for a `CANCELLED` / `EXECUTED` event, an untracked `order_id`
makes the event a complete no-op; for a tracked order the removed quantity
is the event's quantity when present and positive (else the full tracked
remaining quantity), the order is deleted exactly when that removed
quantity reaches the tracked remaining quantity, and otherwise its
remaining quantity is decremented; other tracked orders are untouched. -/
theorem claim_C3_removal (st : LOBState) (e : Event)
    (htr : e.eventType = "ORDER_CANCELLED" ∨ e.eventType = "ORDER_EXECUTED") :
    (dictGet e.order_id st.active_orders = none → applyEvent st e = st) ∧
    (∀ info : OrderInfo, dictGet e.order_id st.active_orders = some info →
      removeQty e info = (match e.quantity with
        | some q => if 0 < q then q else info.q
        | none => info.q) ∧
      dictGet e.order_id (applyEvent st e).active_orders =
        (if info.q ≤ removeQty e info then none
         else some { info with q := info.q - removeQty e info }) ∧
      (∀ oid : Int, oid ≠ e.order_id →
        dictGet oid (applyEvent st e).active_orders =
          dictGet oid st.active_orders)) := by
  constructor
  · intro ho
    exact applyEvent_removal_none st e htr ho
  · intro info ho
    refine ⟨rfl, ?_, ?_⟩
    · rw [applyEvent_removal_eq st e info htr ho]
      dsimp only
      by_cases hqr : info.q ≤ removeQty e info
      · rw [if_pos hqr, if_pos hqr]
        exact dictGet_dictErase_self _ _
      · rw [if_neg hqr, if_neg hqr]
        exact dictGet_dictSet_self _ _ _
    · intro oid hne
      rw [applyEvent_removal_eq st e info htr ho]
      dsimp only
      by_cases hqr : info.q ≤ removeQty e info
      · rw [if_pos hqr]
        exact dictGet_dictErase_ne _ _ _ hne
      · rw [if_neg hqr]
        exact dictGet_dictSet_ne _ _ _ _ hne

/-- The concrete book and event used to witness C3: one tracked bid order
of 10 units at price 100, partially cancelled by 4 units. -/
def stC3 : LOBState := ⟨[(1, ⟨100, 10, "Side.BID"⟩)], [(100, 10)], []⟩

def eC3 : Event := ⟨7, "ORDER_CANCELLED", "", none, some 4, 1⟩

/-- Witness for C3: the partial cancellation leaves the order tracked with
6 remaining units. -/
theorem claim_C3_witness :
    (eC3.eventType = "ORDER_CANCELLED" ∨ eC3.eventType = "ORDER_EXECUTED") ∧
    dictGet eC3.order_id (applyEvent stC3 eC3).active_orders =
      some { p := 100, q := 6, s := "Side.BID" } := by
  refine ⟨Or.inl rfl, ?_⟩
  have h := (claim_C3_removal stC3 eC3 (Or.inl rfl)).2
    ⟨100, 10, "Side.BID"⟩ (by decide)
  rw [h.2.1]
  decide

/-- Claim C6: when the `order_id` column is absent from the schema, both
reconstructors fail outright (`sys.exit(1)` resp. `return None`) and
produce no snapshot output at all — unlike per-record validation failures,
which are absorbed (see C2's per-event snapshot count). -/
theorem claim_C6_schema (sym : String) (df : RawFrame) (h : df.hasOrderId = false) :
    reconstructBook df = none ∧ reconstructLob sym df = none := by
  unfold reconstructBook reconstructLob
  rw [h]
  simp

/-- Witness for C6: a frame with events but no `order_id` column yields no
output from either reconstructor. -/
theorem claim_C6_witness :
    ((⟨false, [⟨0, "ORDER_SUBMITTED", "Side.BID", some 100, some 10, 1⟩]⟩ :
        RawFrame).hasOrderId = false) ∧
    (reconstructBook ⟨false, [⟨0, "ORDER_SUBMITTED", "Side.BID", some 100, some 10, 1⟩]⟩ = none ∧
     reconstructLob "NIFTY_FUT"
       ⟨false, [⟨0, "ORDER_SUBMITTED", "Side.BID", some 100, some 10, 1⟩]⟩ = none) :=
  ⟨rfl, claim_C6_schema "NIFTY_FUT"
    ⟨false, [⟨0, "ORDER_SUBMITTED", "Side.BID", some 100, some 10, 1⟩]⟩ rfl⟩

/-- Claim C8: an input in which no event survives the type filter (in
particular an empty input) reconstructs to an empty snapshot sequence
rather than an error, in every variant. -/
theorem claim_C8_empty (sym : String) (df : RawFrame) (h : df.hasOrderId = true)
    (hnone : ∀ e ∈ df.events, keepEvent e = false) :
    reconstructBook df = some [] ∧ reconstructLob sym df = some [] := by
  have hfe : filterEvents df.events = [] := by
    apply List.filter_eq_nil_iff.mpr
    intro a ha
    simp [hnone a ha]
  unfold reconstructBook reconstructLob
  rw [h, hfe]
  simp [sortByTime, runEvents, runEventsValid]

/-- Witness for C8: an empty frame and a frame holding only a filtered-out
event kind both produce an empty output. -/
theorem claim_C8_witness :
    ((⟨true, [⟨0, "MARKET_OPEN", "", none, none, 0⟩]⟩ : RawFrame).hasOrderId = true) ∧
    (∀ e ∈ [(⟨0, "MARKET_OPEN", "", none, none, 0⟩ : Event)], keepEvent e = false) ∧
    (reconstructBook ⟨true, [⟨0, "MARKET_OPEN", "", none, none, 0⟩]⟩ = some [] ∧
     reconstructLob "NIFTY_FUT" ⟨true, [⟨0, "MARKET_OPEN", "", none, none, 0⟩]⟩ = some []) :=
  ⟨rfl, by decide,
    claim_C8_empty "NIFTY_FUT" ⟨true, [⟨0, "MARKET_OPEN", "", none, none, 0⟩]⟩ rfl
      (by decide)⟩

/-- Claim C1 (claim as stated, refuted): a `SUBMITTED` event that reuses an
`order_id` that is still tracked breaks the level/active-order sum
invariant — the second submission overwrites the `ActiveOrder` entry but
the first order's quantity stays in the price level, so the level holds 15
while the tracked orders at that side and price sum to 5. -/
theorem claim_C1_counterexample :
    ¬ (∀ s ∈ statesOf initState
        [⟨0, "ORDER_SUBMITTED", "Side.BID", some 100, some 10, 1⟩,
         ⟨1, "ORDER_SUBMITTED", "Side.BID", some 100, some 5, 1⟩],
        levelsMatchActive s) := by
  decide

/-- Claim C1 (amended): after every processed event, each price-level entry
equals the sum of tracked remaining quantities on that side and price,
provided the run is well-behaved: every processed submission carries a
positive quantity and a fresh (not currently tracked) `order_id`, and every
removal carrying an explicit positive quantity removes at most the order's
tracked remaining quantity. Order-id reuse while tracked, and explicit
over-removal at a price level shared with other orders, genuinely break the
invariant in the code. -/
theorem claim_C1_amended (es : List Event) (hg : goodRun initState es = true) :
    ∀ s ∈ statesOf initState es, levelsMatchActive s := by
  intro s hs
  have h := goodRun_wf_inv es initState stateWF_init strongInv_init hg s hs
  exact levelsMatchActive_of h.1 h.2

/-- The event sequence used to witness C1: a bid and an ask submission, a
partial cancellation and a full execution, all well-behaved. -/
def esC1 : List Event :=
  [⟨0, "ORDER_SUBMITTED", "Side.BID", some 100, some 10, 1⟩,
   ⟨1, "ORDER_SUBMITTED", "Side.ASK", some 101, some 5, 2⟩,
   ⟨2, "ORDER_CANCELLED", "", none, some 4, 1⟩,
   ⟨3, "ORDER_EXECUTED", "", none, none, 1⟩]

/-- Witness for C1: on the concrete well-behaved sequence `esC1` the
invariant holds at every intermediate state. -/
theorem claim_C1_witness :
    goodRun initState esC1 = true ∧
      ∀ s ∈ statesOf initState esC1, levelsMatchActive s :=
  ⟨by decide, claim_C1_amended esC1 (by decide)⟩

/-- Claim C4 (claim as stated, refuted): the submission handler checks
`price <= 0` but never the quantity, so an `ORDER_SUBMITTED` event with
quantity 0 creates and retains a zero-quantity price-level entry. -/
theorem claim_C4_counterexample :
    ¬ (∀ s ∈ statesOf initState
        [⟨0, "ORDER_SUBMITTED", "Side.BID", some 100, some 0, 7⟩],
        posLevels s) := by
  decide

/-- Claim C4 (amended): provided every `SUBMITTED` event carries a strictly
positive quantity, no state reached during processing retains a zero or
negative price-level entry on either side: submissions then only add
positive amounts, and removals subtract floored at zero and delete a level
that reaches exactly zero. (Removal events need no such proviso.) -/
theorem claim_C4_amended (es : List Event)
    (h : ∀ e ∈ es, e.eventType = "ORDER_SUBMITTED" →
      ∀ q : Int, e.quantity = some q → 0 < q) :
    ∀ s ∈ statesOf initState es, posLevels s :=
  posLevels_states es initState posLevels_init h

/-- The event sequence used to witness C4: positive-quantity submissions,
an over-removal (floored at zero) and a level that reaches exactly zero. -/
def esC4 : List Event :=
  [⟨0, "ORDER_SUBMITTED", "Side.BID", some 100, some 10, 1⟩,
   ⟨1, "ORDER_SUBMITTED", "Side.BID", some 100, some 10, 2⟩,
   ⟨2, "ORDER_CANCELLED", "", none, some 30, 1⟩,
   ⟨3, "ORDER_EXECUTED", "", none, none, 2⟩]

/-- Witness for C4: on `esC4` every reached state has only strictly
positive level entries. -/
theorem claim_C4_witness :
    (∀ e ∈ esC4, e.eventType = "ORDER_SUBMITTED" →
      ∀ q : Int, e.quantity = some q → 0 < q) ∧
    ∀ s ∈ statesOf initState esC4, posLevels s :=
  ⟨by decide, claim_C4_amended esC4 (by decide)⟩

/-! ## Sorting and padding facts for the snapshot claim -/

instance : IsTotal (Rat × Int) (fun a b => b.1 ≤ a.1) :=
  ⟨fun a b => le_total b.1 a.1⟩

instance : IsTrans (Rat × Int) (fun a b => b.1 ≤ a.1) :=
  ⟨fun _ _ _ hab hbc => le_trans hbc hab⟩

instance : IsTotal (Rat × Int) (fun a b => a.1 ≤ b.1) :=
  ⟨fun a b => le_total a.1 b.1⟩

instance : IsTrans (Rat × Int) (fun a b => a.1 ≤ b.1) :=
  ⟨fun _ _ _ hab hbc => le_trans hab hbc⟩

theorem padSlots_getD (l : List (Rat × Int)) (i : Nat) (hi : i < DEPTH) :
    (padSlots l).getD i (1, 1) = l.getD i (0, 0) := by
  unfold padSlots
  rw [List.getD_eq_getElem?_getD, List.getElem?_map, List.getElem?_range hi]
  rfl

/-- Claim C5: every snapshot's bid slots are the bid price-level entries
sorted by price descending and truncated to `DEPTH` (asks ascending), each
slot past the number of available levels holds exactly `(0.0, 0)`, and
`mid_price` is the average of the two best prices when both are positive
and `0.0` otherwise. -/
theorem claim_C5_snapshot (t : Int) (sym : String) (st : LOBState) :
    ((snapshotOf t sym st).bids = padSlots ((sortDescByPrice st.bid_levels).take DEPTH) ∧
     (snapshotOf t sym st).asks = padSlots ((sortAscByPrice st.ask_levels).take DEPTH)) ∧
    ((sortDescByPrice st.bid_levels).Pairwise (fun a b => b.1 ≤ a.1) ∧
     (sortDescByPrice st.bid_levels).Perm st.bid_levels) ∧
    ((sortAscByPrice st.ask_levels).Pairwise (fun a b => a.1 ≤ b.1) ∧
     (sortAscByPrice st.ask_levels).Perm st.ask_levels) ∧
    ((∀ i : Nat, i < DEPTH → st.bid_levels.length ≤ i →
        (snapshotOf t sym st).bids.getD i (1, 1) = (0, 0)) ∧
     (∀ i : Nat, i < DEPTH → st.ask_levels.length ≤ i →
        (snapshotOf t sym st).asks.getD i (1, 1) = (0, 0))) ∧
    (snapshotOf t sym st).mid_price =
      (if 0 < ((snapshotOf t sym st).bids.getD 0 (0, 0)).1 ∧
           0 < ((snapshotOf t sym st).asks.getD 0 (0, 0)).1 then
         (((snapshotOf t sym st).bids.getD 0 (0, 0)).1 +
           ((snapshotOf t sym st).asks.getD 0 (0, 0)).1) / 2
       else 0) := by
  refine ⟨⟨rfl, rfl⟩,
    ⟨List.sorted_insertionSort _ _, List.perm_insertionSort _ _⟩,
    ⟨List.sorted_insertionSort _ _, List.perm_insertionSort _ _⟩,
    ⟨?_, ?_⟩, rfl⟩
  · intro i hi hlen
    have h1 : (snapshotOf t sym st).bids =
        padSlots ((sortDescByPrice st.bid_levels).take DEPTH) := rfl
    rw [h1, padSlots_getD _ _ hi]
    apply List.getD_eq_default
    rw [List.length_take]
    have hl := (List.perm_insertionSort
      (fun a b : Rat × Int => b.1 ≤ a.1) st.bid_levels).length_eq
    unfold sortDescByPrice
    omega
  · intro i hi hlen
    have h1 : (snapshotOf t sym st).asks =
        padSlots ((sortAscByPrice st.ask_levels).take DEPTH) := rfl
    rw [h1, padSlots_getD _ _ hi]
    apply List.getD_eq_default
    rw [List.length_take]
    have hl := (List.perm_insertionSort
      (fun a b : Rat × Int => a.1 ≤ b.1) st.ask_levels).length_eq
    unfold sortAscByPrice
    omega

/-- The concrete book used to witness C5: two bid levels, one ask level. -/
def stC5 : LOBState := ⟨[], [(99, 5), (100, 10)], [(101, 7)]⟩

/-- Witness for C5: on a two-level bid book, slot index 3 (beyond the
available levels) is exactly `(0.0, 0)`. -/
theorem claim_C5_witness :
    ((3:Nat) < DEPTH ∧ stC5.bid_levels.length ≤ 3) ∧
    (snapshotOf 3 "NIFTY_SIM" stC5).bids.getD 3 (1, 1) = (0, 0) :=
  ⟨⟨by decide, by decide⟩,
    (claim_C5_snapshot 3 "NIFTY_SIM" stC5).2.2.2.1.1 3 (by decide) (by decide)⟩

/-! ## Substring characterization of the side tag test -/

theorem charsStartWith_iff : ∀ n h : List Char,
    charsStartWith n h = true ↔ ∃ rest, h = n ++ rest := by
  intro n
  induction n with
  | nil =>
    intro h
    simp [charsStartWith]
  | cons a as ih =>
    intro h
    cases h with
    | nil => simp [charsStartWith]
    | cons b bs =>
      simp only [charsStartWith, Bool.and_eq_true, decide_eq_true_eq, ih bs]
      constructor
      · rintro ⟨rfl, rest, rfl⟩
        exact ⟨rest, rfl⟩
      · rintro ⟨rest, heq⟩
        injection heq with h1 h2
        exact ⟨h1.symm, rest, h2⟩

theorem charsContain_iff : ∀ h n : List Char,
    charsContain n h = true ↔ ∃ pre post, h = pre ++ n ++ post := by
  intro h
  induction h with
  | nil =>
    intro n
    simp only [charsContain, charsStartWith_iff]
    constructor
    · rintro ⟨rest, hr⟩
      exact ⟨[], rest, hr⟩
    · rintro ⟨pre, post, hp⟩
      cases pre with
      | nil => exact ⟨post, hp⟩
      | cons x xs => simp at hp
  | cons b bs ih =>
    intro n
    simp only [charsContain, Bool.or_eq_true, charsStartWith_iff, ih]
    constructor
    · rintro (⟨rest, hr⟩ | ⟨pre, post, hp⟩)
      · exact ⟨[], rest, hr⟩
      · refine ⟨b :: pre, post, ?_⟩
        rw [hp]
        rfl
    · rintro ⟨pre, post, hp⟩
      cases pre with
      | nil => exact Or.inl ⟨post, by simpa using hp⟩
      | cons x xs =>
        injection hp with h1 h2
        subst h1
        exact Or.inr ⟨xs, post, h2⟩

/-- Claim C9: side classification of a processed submission is a two-way
test with no rejection branch — the quantity goes to the bid levels exactly
when the side string contains the substring `"BID"` (characterized here as
a contiguous-substring decomposition), and to the ask levels in every other
case, including side strings containing neither `"BID"` nor `"ASK"`. -/
theorem claim_C9_side (st : LOBState) (e : Event) (price : Rat) (qty : Int)
    (hts : e.eventType = "ORDER_SUBMITTED") (hp : e.limit_price = some price)
    (hq : e.quantity = some qty) (hpos : 0 < price) :
    ((sideHasBID e.side = true →
        (applyEvent st e).bid_levels =
          dictSet price (dictGetD price st.bid_levels 0 + qty) st.bid_levels ∧
        (applyEvent st e).ask_levels = st.ask_levels) ∧
     (sideHasBID e.side = false →
        (applyEvent st e).ask_levels =
          dictSet price (dictGetD price st.ask_levels 0 + qty) st.ask_levels ∧
        (applyEvent st e).bid_levels = st.bid_levels)) ∧
    (sideHasBID e.side = true ↔
      ∃ pre post : List Char, e.side.toList = pre ++ "BID".toList ++ post) := by
  have hple : ¬ price ≤ 0 := not_le.mpr hpos
  refine ⟨⟨?_, ?_⟩, ?_⟩
  · intro hb
    rw [applyEvent_submit_eq st e price qty hts hp hq hple, if_pos hb]
    exact ⟨rfl, rfl⟩
  · intro hb
    rw [applyEvent_submit_eq st e price qty hts hp hq hple,
      if_neg (by simp [hb])]
    exact ⟨rfl, rfl⟩
  · unfold sideHasBID
    exact charsContain_iff e.side.toList "BID".toList

/-- The concrete event used to witness C9: a valid submission whose side
string contains neither `"BID"` nor `"ASK"`. -/
def eC9 : Event := ⟨0, "ORDER_SUBMITTED", "Side.NONE", some 50, some 3, 9⟩

/-- Witness for C9: the `"Side.NONE"` submission is booked on the ask
side. -/
theorem claim_C9_witness :
    (eC9.eventType = "ORDER_SUBMITTED" ∧ eC9.limit_price = some 50 ∧
     eC9.quantity = some 3 ∧ (0:Rat) < 50 ∧ sideHasBID eC9.side = false) ∧
    ((applyEvent initState eC9).ask_levels =
      dictSet 50 (dictGetD 50 initState.ask_levels 0 + 3) initState.ask_levels ∧
     (applyEvent initState eC9).bid_levels = initState.bid_levels) :=
  ⟨⟨rfl, rfl, rfl, by decide, by decide⟩,
    (claim_C9_side initState eC9 50 3 rfl rfl rfl (by decide)).1.2 (by decide)⟩

/-- Claim C10: a removal of a tracked order never consults the event's own
`side` and `limit_price` fields (the transition is invariant under changing
them), reads side and price from the stored entry, and mutates at most the
stored price key on the stored side: every other price on that side, the
whole other side, and every other tracked order are unchanged. -/
theorem claim_C10_frame (st : LOBState) (e : Event) (info : OrderInfo)
    (htr : e.eventType = "ORDER_CANCELLED" ∨ e.eventType = "ORDER_EXECUTED")
    (ho : dictGet e.order_id st.active_orders = some info) :
    (∀ (s' : String) (lp' : Option Rat),
      applyEvent st { e with side := s', limit_price := lp' } = applyEvent st e) ∧
    (∀ p : Rat, p ≠ info.p →
      dictGet p (applyEvent st e).bid_levels = dictGet p st.bid_levels ∧
      dictGet p (applyEvent st e).ask_levels = dictGet p st.ask_levels) ∧
    (sideHasBID info.s = true → (applyEvent st e).ask_levels = st.ask_levels) ∧
    (sideHasBID info.s = false → (applyEvent st e).bid_levels = st.bid_levels) ∧
    (∀ oid : Int, oid ≠ e.order_id →
      dictGet oid (applyEvent st e).active_orders = dictGet oid st.active_orders) := by
  refine ⟨?_, ?_, ?_, ?_, ?_⟩
  · intro s' lp'
    rw [applyEvent_removal_eq st { e with side := s', limit_price := lp' } info htr ho,
      applyEvent_removal_eq st e info htr ho]
    rfl
  · intro p hpp
    rw [applyEvent_removal_eq st e info htr ho]
    dsimp only
    constructor
    · by_cases hbs : sideHasBID info.s = true
      · rw [if_pos hbs]
        exact dictGet_levelRemove_ne info.p p _ st.bid_levels hpp
      · rw [if_neg hbs]
    · by_cases hbs : sideHasBID info.s = true
      · rw [if_pos hbs]
      · rw [if_neg hbs]
        exact dictGet_levelRemove_ne info.p p _ st.ask_levels hpp
  · intro hbs
    rw [applyEvent_removal_eq st e info htr ho]
    dsimp only
    rw [if_pos hbs]
  · intro hbs
    rw [applyEvent_removal_eq st e info htr ho]
    dsimp only
    rw [if_neg (by simp [hbs])]
  · intro oid hne
    rw [applyEvent_removal_eq st e info htr ho]
    dsimp only
    by_cases hqr : info.q ≤ removeQty e info
    · rw [if_pos hqr]
      exact dictGet_dictErase_ne _ _ _ hne
    · rw [if_neg hqr]
      exact dictGet_dictSet_ne _ _ _ _ hne

/-- The concrete book and event used to witness C10: a bid and an ask
order; the execution event carries misleading `side` / `limit_price`
fields. -/
def stC10 : LOBState :=
  ⟨[(1, ⟨100, 10, "Side.BID"⟩), (2, ⟨101, 4, "Side.ASK"⟩)], [(100, 10)], [(101, 4)]⟩

def eC10 : Event := ⟨5, "ORDER_EXECUTED", "Side.ASK", some 999, some 10, 1⟩

/-- Witness for C10: executing the tracked bid order ignores the event's
own (ask-looking) side and price fields and leaves the ask side and the
other order untouched. -/
theorem claim_C10_witness :
    ((eC10.eventType = "ORDER_CANCELLED" ∨ eC10.eventType = "ORDER_EXECUTED") ∧
     dictGet eC10.order_id stC10.active_orders = some ⟨100, 10, "Side.BID"⟩) ∧
    (applyEvent stC10 { eC10 with side := "Side.BID", limit_price := none } =
      applyEvent stC10 eC10 ∧
     (applyEvent stC10 eC10).ask_levels = stC10.ask_levels ∧
     dictGet 2 (applyEvent stC10 eC10).active_orders =
       dictGet 2 stC10.active_orders) :=
  ⟨⟨Or.inr rfl, by decide⟩,
   (claim_C10_frame stC10 eC10 ⟨100, 10, "Side.BID"⟩ (Or.inr rfl) (by decide)).1
     "Side.BID" none,
   (claim_C10_frame stC10 eC10 ⟨100, 10, "Side.BID"⟩ (Or.inr rfl) (by decide)).2.2.1
     (by decide),
   (claim_C10_frame stC10 eC10 ⟨100, 10, "Side.BID"⟩ (Or.inr rfl) (by decide)).2.2.2.2
     2 (by decide)⟩

end LOB
